import Mathlib

/-!
Shallow embedding of `frappe/database/utils.py`.

Python strings are modelled as `String`/`List Char`, byte sequences as
`List Nat` (each entry < 256 at use sites), and fallible Python code as
`Except PyError`.  The lazily evaluated string cells (`LazyString`,
`LazyDecode`, `LazyMogrify`) are modelled as explicit state passing: a
cell carries its computation descriptor and the `cached_property` slot,
and every access returns the result, the updated cell and the number of
times the evaluation step (`_setup`) ran during that access.
-/

/-- The Python exception kinds that the embedded code can raise. -/
inductive PyError where
  | notImplementedError
  | unicodeDecodeError
  | indexError
  deriving Repr, DecidableEq

/-- Python `str.isspace` characters relevant to `str.split()` /
`str.lstrip()` (ASCII whitespace: space, tab, newline, carriage return,
vertical tab, form feed). -/
def pyIsSpace (c : Char) : Bool :=
  c = ' ' || c = '\t' || c = '\n' || c = '\r' || c = '\x0b' || c = '\x0c'

/-- Python `str.lstrip()` with no argument: drop leading whitespace. -/
def pyLstrip (l : List Char) : List Char :=
  l.dropWhile pyIsSpace

/-- Python `str.lower()` restricted to its ASCII action (the queries the
source classifies are ASCII SQL text). -/
def pyToLower (c : Char) : Char :=
  if 65 ≤ c.toNat ∧ c.toNat ≤ 90 then Char.ofNat (c.toNat + 32) else c

/-- Python `str.split()` (no separator) with `maxsplit=1`: skip leading
whitespace; if nothing remains return `[]`, otherwise return the first
whitespace-delimited token and, when non-empty, the rest of the string
with the whitespace run after the token removed. -/
def pySplitWs1 (l : List Char) : List (List Char) :=
  let l₁ := l.dropWhile pyIsSpace
  if l₁ = [] then []
  else
    let tok := l₁.takeWhile (fun c => !pyIsSpace c)
    let rest := (l₁.dropWhile (fun c => !pyIsSpace c)).dropWhile pyIsSpace
    if rest = [] then [tok] else [tok, rest]

/-- Python `s.split(sep, maxsplit=1)` for a one-character separator:
`[s]` when the separator does not occur, else the parts before and after
its first occurrence. -/
def pySplitOnce (sep : Char) (l : List Char) : List (List Char) :=
  match l.dropWhile (· ≠ sep) with
  | [] => [l]
  | _ :: t => [l.takeWhile (· ≠ sep), t]

/-- Python `s.split(sep)` for a one-character separator (keeps empty
parts, always returns at least one part). -/
def pySplitAll (sep : Char) : List Char → List (List Char)
  | [] => [[]]
  | c :: t =>
    if c = sep then [] :: pySplitAll sep t
    else
      match pySplitAll sep t with
      | [] => [[c]]
      | h :: r => (c :: h) :: r

/-- Python `s.startswith(t)` for tuple arguments: some member of the
tuple is a prefix of `s`.  A single-string argument is the singleton
list. -/
def pyStartswith (s : List Char) (kws : List (List Char)) : Bool :=
  kws.any (fun k => k.isPrefixOf s)

/-- `is_query_type(query, query_type)`:
`query.lstrip().split(maxsplit=1)[0].lower().startswith(query_type)`.
Indexing `[0]` into the split of a whitespace-only string raises
`IndexError`. -/
def is_query_type (query : String) (query_type : List String) : Except PyError Bool :=
  match pySplitWs1 (pyLstrip query.data) with
  | [] => .error .indexError
  | tok :: _ => .ok (pyStartswith (tok.map pyToLower) (query_type.map String.data))

/-- `table_from_string(table)`: the `table_name` string handed to
`frappe.qb.DocType`, i.e.
`table.split("\x60", maxsplit=1)[1].split(".")[0][3:]`, with every
backtick removed via `replace` when one remains.  Indexing `[1]` when
the string has no backtick raises `IndexError`. -/
def table_from_string (table : String) : Except PyError String :=
  match pySplitOnce '`' table.data with
  | [_] => .error .indexError
  | _ :: after :: _ =>
    let table_name := ((pySplitAll '.' after).headD []).drop 3
    if '`' ∈ table_name then .ok ⟨table_name.filter (· ≠ '`')⟩
    else .ok ⟨table_name⟩
  | [] => .error .indexError

/-! ### Strict UTF-8 decoding (Python `bytes.decode()` default codec)

A streaming decoder over the byte list.  `Utf8Pending` is the state in
the middle of a multi-byte sequence: remaining continuation bytes, the
code point accumulated so far, and the admissible range for the next
byte (the first continuation byte of a sequence has a restricted range
that rules out overlong encodings, surrogates and values above
U+10FFFF, exactly as CPython's strict codec does). -/

/-- In-progress multi-byte UTF-8 sequence:
(remaining continuation bytes, accumulated code point, min and max
admissible next byte). -/
structure Utf8Pending where
  remaining : Nat
  acc : Nat
  lo : Nat
  hi : Nat
  deriving Repr, DecidableEq

/-- Classify a lead byte: an ASCII code point, the start of a
multi-byte sequence, or invalid. -/
def utf8Start (b : Nat) : Except PyError (Utf8Pending ⊕ Nat) :=
  if b < 0x80 then .ok (.inr b)
  else if b < 0xC2 then .error .unicodeDecodeError
  else if b < 0xE0 then .ok (.inl ⟨1, b - 0xC0, 0x80, 0xBF⟩)
  else if b = 0xE0 then .ok (.inl ⟨2, 0, 0xA0, 0xBF⟩)
  else if b = 0xED then .ok (.inl ⟨2, 0xD, 0x80, 0x9F⟩)
  else if b < 0xF0 then .ok (.inl ⟨2, b - 0xE0, 0x80, 0xBF⟩)
  else if b = 0xF0 then .ok (.inl ⟨3, 0, 0x90, 0xBF⟩)
  else if b < 0xF4 then .ok (.inl ⟨3, b - 0xF0, 0x80, 0xBF⟩)
  else if b = 0xF4 then .ok (.inl ⟨3, 4, 0x80, 0x8F⟩)
  else .error .unicodeDecodeError

/-- Consume one continuation byte of a pending sequence. -/
def utf8Cont (p : Utf8Pending) (b : Nat) : Except PyError (Utf8Pending ⊕ Nat) :=
  if p.lo ≤ b ∧ b ≤ p.hi then
    let acc := p.acc * 64 + (b - 0x80)
    if p.remaining = 1 then .ok (.inr acc)
    else .ok (.inl ⟨p.remaining - 1, acc, 0x80, 0xBF⟩)
  else .error .unicodeDecodeError

/-- Decode a byte list into characters; a pending sequence left open at
the end of the input is an error (truncated data). -/
def utf8DecodeAux : Option Utf8Pending → List Nat → Except PyError (List Char)
  | none, [] => .ok []
  | some _, [] => .error .unicodeDecodeError
  | none, b :: t =>
    match utf8Start b with
    | .error e => .error e
    | .ok (.inl p) => utf8DecodeAux (some p) t
    | .ok (.inr cp) => (utf8DecodeAux none t).map (Char.ofNat cp :: ·)
  | some p, b :: t =>
    match utf8Cont p b with
    | .error e => .error e
    | .ok (.inl p₂) => utf8DecodeAux (some p₂) t
    | .ok (.inr cp) => (utf8DecodeAux none t).map (Char.ofNat cp :: ·)

/-- Python `bytes.decode()` with the default (UTF-8, strict) codec. -/
def pyBytesDecode (bs : List Nat) : Except PyError String :=
  (utf8DecodeAux none bs).map (fun cs => ⟨cs⟩)

/-! ### The `LazyString` cells

A cell is its computation descriptor, the variant's `_setup` step, and
the `cached_property` slot for `value` (`none` while unevaluated).
`functools.cached_property` runs the wrapped method on first access,
stores the result in the instance dictionary only when the method
returns normally, and serves the stored result thereafter; an exception
propagates and stores nothing. -/

/-- A lazy string cell over descriptor type `σ`. -/
structure LazyString (σ : Type) where
  desc : σ
  setup : σ → Except PyError String
  cache : Option String

/-- The three public accessors of a cell: `value` (the cached
property), `__str__` and `__repr__`. -/
inductive Access where
  | val
  | toStr
  | toRepr
  deriving Repr, DecidableEq

/-- One read of the `value` cached property: result, updated cell, and
how many times `_setup` ran (0 or 1). -/
def LazyString.valueStep {σ : Type} (c : LazyString σ) :
    Except PyError String × LazyString σ × Nat :=
  match c.cache with
  | some v => (.ok v, c, 0)
  | none =>
    match c.setup c.desc with
    | .ok v => (.ok v, { c with cache := some v }, 1)
    | .error e => (.error e, c, 1)

/-- `__str__`: returns `self.value`. -/
def LazyString.strStep {σ : Type} (c : LazyString σ) :
    Except PyError String × LazyString σ × Nat :=
  c.valueStep

/-- `__repr__`: returns `f"'\x7bself.value\x7d'"`; an exception from
`value` propagates. -/
def LazyString.reprStep {σ : Type} (c : LazyString σ) :
    Except PyError String × LazyString σ × Nat :=
  match c.valueStep with
  | (.ok v, c₂, n) => (.ok ("'" ++ v ++ "'"), c₂, n)
  | (.error e, c₂, n) => (.error e, c₂, n)

/-- Dispatch one access. -/
def LazyString.doAccess {σ : Type} (c : LazyString σ) :
    Access → Except PyError String × LazyString σ × Nat
  | .val => c.valueStep
  | .toStr => c.strStep
  | .toRepr => c.reprStep

/-- Run a sequence of accesses against a cell, collecting every result
and the total number of `_setup` invocations. -/
def LazyString.run {σ : Type} (c : LazyString σ) :
    List Access → List (Except PyError String) × LazyString σ × Nat
  | [] => ([], c, 0)
  | a :: t =>
    let s₁ := c.doAccess a
    let s₂ := s₁.2.1.run t
    (s₁.1 :: s₂.1, s₂.2.1, s₁.2.2 + s₂.2.2)

/-- The base class' `_setup`: `raise NotImplementedError`. -/
def LazyString.baseSetup : Unit → Except PyError String :=
  fun _ => .error .notImplementedError

/-- A `LazyString` instance whose `_setup` was not overridden. -/
def LazyString.base : LazyString Unit :=
  ⟨(), LazyString.baseSetup, none⟩

/-- `LazyDecode(value)`: stores the byte sequence; `_setup` returns
`self._value.decode()`. -/
def LazyDecode (value : List Nat) : LazyString (List Nat) :=
  ⟨value, pyBytesDecode, none⟩

/-- `LazyMogrify(query, values)`: stores the pair; `_setup` returns
`frappe.db.mogrify(self.query, self.values)`.  `mogrify` is the
external rendering collaborator (not part of this excerpt), so the cell
is parametrised by it; errors it raises propagate unchanged. -/
def LazyMogrify {Q V : Type} (mogrify : Q → V → Except PyError String)
    (query : Q) (values : V) : LazyString (Q × V) :=
  ⟨(query, values), fun qv => mogrify qv.1 qv.2, none⟩

/-- The result an access kind yields once the cell's value is `v`:
`value`/`__str__` return `v`, `__repr__` returns `v` wrapped in single
quotes. -/
def renderOf (v : String) : Access → Except PyError String
  | .val => .ok v
  | .toStr => .ok v
  | .toRepr => .ok ("'" ++ v ++ "'")

theorem LazyString.doAccess_cached {σ : Type} (c : LazyString σ) (v : String)
    (h : c.cache = some v) (a : Access) : c.doAccess a = (renderOf v a, c, 0) := by
  cases a <;> simp [doAccess, valueStep, strStep, reprStep, h, renderOf]

theorem LazyString.doAccess_fresh_ok {σ : Type} (d : σ) (f : σ → Except PyError String)
    (v : String) (h : f d = .ok v) (a : Access) :
    (LazyString.mk d f none).doAccess a = (renderOf v a, LazyString.mk d f (some v), 1) := by
  cases a <;> simp [doAccess, valueStep, strStep, reprStep, h, renderOf]

theorem LazyString.run_cached {σ : Type} (c : LazyString σ) (v : String)
    (h : c.cache = some v) (ks : List Access) : c.run ks = (ks.map (renderOf v), c, 0) := by
  induction ks with
  | nil => simp [run]
  | cons a t ih => simp [run, doAccess_cached c v h, ih]

theorem LazyString.run_fresh_ok {σ : Type} (d : σ) (f : σ → Except PyError String)
    (v : String) (h : f d = .ok v) (ks : List Access) :
    (LazyString.mk d f none).run ks
      = (ks.map (renderOf v),
         LazyString.mk d f (if ks.isEmpty then none else some v),
         min ks.length 1) := by
  cases ks with
  | nil => simp [run]
  | cons a t =>
    simp [run, doAccess_fresh_ok d f v h,
      run_cached (LazyString.mk d f (some v)) v rfl]

/-- C1: for a lazy value cell whose evaluation step succeeds, any
sequence of `value()`/`__str__`/`__repr__` accesses runs the evaluation
step at most once (exactly once as soon as one access happens), every
access returns the rendering of the one cached value, and the cache
ends up holding that value. -/
theorem lazy_value_evaluates_once {σ : Type} (d : σ) (f : σ → Except PyError String)
    (v : String) (h : f d = .ok v) (ks : List Access) :
    ((LazyString.mk d f none).run ks).1 = ks.map (renderOf v) ∧
    ((LazyString.mk d f none).run ks).2.2 = min ks.length 1 ∧
    ((LazyString.mk d f none).run ks).2.1.cache
      = (if ks.isEmpty then none else some v) := by
  simp [LazyString.run_fresh_ok d f v h ks]

/-- Witness for C1 at a concrete cell and access sequence. -/
theorem lazy_value_evaluates_once_witness :
    ((LazyString.mk () (fun _ => .ok "abc") none).run [.val, .toStr, .val]).1
        = [.ok "abc", .ok "abc", .ok "abc"] ∧
    ((LazyString.mk () (fun _ => .ok "abc") none).run [.val, .toStr, .val]).2.2 = 1 := by
  have h := lazy_value_evaluates_once () (fun _ => .ok "abc") "abc" rfl [.val, .toStr, .val]
  exact ⟨by simpa [renderOf] using h.1, by simpa using h.2.1⟩

/-- C9: when the evaluation step raises, the access returns the error
and the cell is left exactly as it was (nothing is cached). -/
theorem failed_access_leaves_cell_unevaluated {σ : Type} (d : σ)
    (f : σ → Except PyError String) (e : PyError) (h : f d = .error e) (a : Access) :
    (LazyString.mk d f none).doAccess a = (.error e, LazyString.mk d f none, 1) := by
  cases a <;>
    simp [LazyString.doAccess, LazyString.valueStep, LazyString.strStep,
      LazyString.reprStep, h]

/-- Witness for C9 at a concrete failing cell. -/
theorem failed_access_leaves_cell_unevaluated_witness :
    (LazyString.mk () (fun _ => .error .unicodeDecodeError) none).doAccess .val
      = (.error .unicodeDecodeError,
         LazyString.mk () (fun _ => .error .unicodeDecodeError) none, 1) :=
  failed_access_leaves_cell_unevaluated () _ .unicodeDecodeError rfl .val

/-- C8: every accessor of the base `LazyString` (whose `_setup` is not
overridden) fails with `NotImplementedError`. -/
theorem lazy_base_not_implemented :
    (LazyString.base.doAccess .val).1 = .error .notImplementedError ∧
    (LazyString.base.doAccess .toStr).1 = .error .notImplementedError ∧
    (LazyString.base.doAccess .toRepr).1 = .error .notImplementedError :=
  ⟨rfl, rfl, rfl⟩

/-- C3: when the evaluation step succeeds with `v`, `__str__` returns
`v` and `__repr__` returns `v` wrapped in single quotes — they differ
exactly by the quote delimiters. -/
theorem repr_wraps_value_in_quotes {σ : Type} (d : σ) (f : σ → Except PyError String)
    (v : String) (h : f d = .ok v) :
    ((LazyString.mk d f none).strStep).1 = .ok v ∧
    ((LazyString.mk d f none).reprStep).1 = .ok ("'" ++ v ++ "'") := by
  simp [LazyString.strStep, LazyString.reprStep, LazyString.valueStep, h]

/-- Witness for C3 at the spec's example value `"abc"`. -/
theorem repr_wraps_value_in_quotes_witness :
    ((LazyString.mk () (fun _ => .ok "abc") none).strStep).1 = .ok "abc" ∧
    ((LazyString.mk () (fun _ => .ok "abc") none).reprStep).1 = .ok "'abc'" := by
  have h := repr_wraps_value_in_quotes () (fun _ => .ok "abc") "abc" rfl
  exact ⟨h.1, by simpa using h.2⟩

/-- C2: a `LazyDecode` cell over bytes that decode successfully returns
exactly the decoded text from `__str__` (`toText`) and `value`. -/
theorem lazy_decode_decodes (B : List Nat) (s : String)
    (h : pyBytesDecode B = .ok s) :
    ((LazyDecode B).doAccess .toStr).1 = .ok s ∧
    ((LazyDecode B).doAccess .val).1 = .ok s := by
  simp [LazyDecode, LazyString.doAccess, LazyString.strStep, LazyString.valueStep, h]

/-- Witness for C2: the bytes `68 69` decode to `"hi"`. -/
theorem lazy_decode_decodes_witness :
    ((LazyDecode [104, 105]).doAccess .toStr).1 = .ok "hi" ∧
    ((LazyDecode [104, 105]).doAccess .val).1 = .ok "hi" :=
  lazy_decode_decodes [104, 105] "hi" rfl

theorem utf8Start_error_kind (b : Nat) (e : PyError) (h : utf8Start b = .error e) :
    e = .unicodeDecodeError := by
  unfold utf8Start at h
  split_ifs at h <;> simp_all

theorem utf8Cont_error_kind (p : Utf8Pending) (b : Nat) (e : PyError)
    (h : utf8Cont p b = .error e) : e = .unicodeDecodeError := by
  unfold utf8Cont at h
  split_ifs at h
  simp_all

theorem utf8DecodeAux_error_kind (bs : List Nat) :
    ∀ (st : Option Utf8Pending) (e : PyError),
      utf8DecodeAux st bs = .error e → e = .unicodeDecodeError := by
  induction bs with
  | nil =>
    intro st e h
    cases st with
    | none => simp [utf8DecodeAux] at h
    | some p =>
      simp [utf8DecodeAux] at h
      exact h.symm
  | cons b t ih =>
    intro st e h
    cases st with
    | none =>
      rw [utf8DecodeAux] at h
      cases hs : utf8Start b with
      | error e₂ =>
        rw [hs] at h
        simp at h
        exact h ▸ utf8Start_error_kind b e₂ hs
      | ok x =>
        cases x with
        | inl p =>
          rw [hs] at h
          exact ih (some p) e h
        | inr cp =>
          rw [hs] at h
          simp only [] at h
          cases hd : utf8DecodeAux none t with
          | error e₂ =>
            rw [hd] at h
            simp [Except.map] at h
            exact h ▸ ih none e₂ hd
          | ok cs =>
            rw [hd] at h
            simp [Except.map] at h
    | some p =>
      rw [utf8DecodeAux] at h
      cases hs : utf8Cont p b with
      | error e₂ =>
        rw [hs] at h
        simp at h
        exact h ▸ utf8Cont_error_kind p b e₂ hs
      | ok x =>
        cases x with
        | inl p₂ =>
          rw [hs] at h
          exact ih (some p₂) e h
        | inr cp =>
          rw [hs] at h
          cases hd : utf8DecodeAux none t with
          | error e₂ =>
            rw [hd] at h
            simp [Except.map] at h
            exact h ▸ ih none e₂ hd
          | ok cs =>
            rw [hd] at h
            simp [Except.map] at h

/-- C7: a `LazyDecode` cell over bytes that are not valid UTF-8 fails
with the decode error kind from every accessor, unrecovered. -/
theorem lazy_decode_invalid_raises (B : List Nat) (e : PyError)
    (h : pyBytesDecode B = .error e) :
    e = .unicodeDecodeError ∧
    ((LazyDecode B).doAccess .val).1 = .error .unicodeDecodeError ∧
    ((LazyDecode B).doAccess .toStr).1 = .error .unicodeDecodeError ∧
    ((LazyDecode B).doAccess .toRepr).1 = .error .unicodeDecodeError := by
  have hcore : utf8DecodeAux none B = .error e := by
    unfold pyBytesDecode at h
    cases hd : utf8DecodeAux none B with
    | error e₂ => rw [hd] at h; simp [Except.map] at h; rw [h]
    | ok cs => rw [hd] at h; simp [Except.map] at h
  have hk : e = .unicodeDecodeError := utf8DecodeAux_error_kind B none e hcore
  subst hk
  refine ⟨rfl, ?_, ?_, ?_⟩ <;>
    simp [LazyDecode, LazyString.doAccess, LazyString.valueStep,
      LazyString.strStep, LazyString.reprStep, h]

/-- Witness for C7: the single byte `0xFF` is not valid UTF-8. -/
theorem lazy_decode_invalid_raises_witness :
    ((LazyDecode [255]).doAccess .val).1 = .error .unicodeDecodeError :=
  (lazy_decode_invalid_raises [255] .unicodeDecodeError rfl).2.1

/-- Counterexample to C4 as stated: with a collaborator whose output
for the stored template/values is `"SELECT 1"`, `__repr__` (toDebugText)
returns `"'SELECT 1'"`, which is not the collaborator's output — the
repr adds single-quote delimiters. -/
theorem mogrify_repr_equals_render_cex :
    ((LazyMogrify (fun (q : String) (_ : Option String) => .ok q)
        "SELECT 1" none).doAccess .toRepr).1 = .ok "'SELECT 1'" ∧
    (Except.ok "'SELECT 1'" : Except PyError String) ≠ .ok "SELECT 1" := by
  refine ⟨rfl, ?_⟩
  intro h
  simp at h

/-- C4 (amended): `toDebugText()` on a `LazyMogrify` cell equals the
collaborator's output for `render(T, V)` wrapped in single quotes, and
the collaborator runs exactly once no matter how many times
`toDebugText()` is called. -/
theorem mogrify_repr_wraps_render {Q V : Type} (mogrify : Q → V → Except PyError String)
    (q : Q) (v : V) (s : String) (h : mogrify q v = .ok s) (n : Nat) (hn : 1 ≤ n) :
    ((LazyMogrify mogrify q v).run (List.replicate n .toRepr)).1
        = List.replicate n (.ok ("'" ++ s ++ "'")) ∧
    ((LazyMogrify mogrify q v).run (List.replicate n .toRepr)).2.2 = 1 := by
  have hrun := LazyString.run_fresh_ok (q, v) (fun qv => mogrify qv.1 qv.2) s h
      (List.replicate n .toRepr)
  rw [LazyMogrify, hrun]
  refine ⟨?_, ?_⟩
  · simp [List.map_replicate, renderOf]
  · simp [List.length_replicate]
    omega

/-- Witness for C4 (amended) at a concrete collaborator and two
`toDebugText()` calls. -/
theorem mogrify_repr_wraps_render_witness :
    ((LazyMogrify (fun (q : String) (_ : Option String) => .ok q)
        "SELECT 1" none).run [.toRepr, .toRepr]).1
        = [.ok "'SELECT 1'", .ok "'SELECT 1'"] ∧
    ((LazyMogrify (fun (q : String) (_ : Option String) => .ok q)
        "SELECT 1" none).run [.toRepr, .toRepr]).2.2 = 1 := by
  have h := mogrify_repr_wraps_render (fun (q : String) (_ : Option String) => .ok q)
      "SELECT 1" none "SELECT 1" rfl 2 (by omega)
  exact ⟨by simpa using h.1, by simpa using h.2⟩

/-- C5: the classifier strips leading whitespace, lower-cases the first
whitespace-delimited token, and reports whether one of the supplied
keywords is a prefix of it; the spec's two examples hold and the result
is case-insensitive in the leading token. -/
theorem is_query_type_classifier :
    (is_query_type "  SELECT * FROM t" ["select", "update"] = .ok true) ∧
    (is_query_type "DELETE FROM t" ["select"] = .ok false) ∧
    (∀ (q : String) (kws : List String) (tok : List Char) (rest : List (List Char)),
      pySplitWs1 (pyLstrip q.data) = tok :: rest →
      (is_query_type q kws = .ok true ↔
        ∃ k ∈ kws, k.data <+: tok.map pyToLower)) ∧
    (∀ (q₁ q₂ : String) (kws : List String) (t₁ t₂ : List Char)
        (r₁ r₂ : List (List Char)),
      pySplitWs1 (pyLstrip q₁.data) = t₁ :: r₁ →
      pySplitWs1 (pyLstrip q₂.data) = t₂ :: r₂ →
      t₁.map pyToLower = t₂.map pyToLower →
      is_query_type q₁ kws = is_query_type q₂ kws) := by
  refine ⟨rfl, rfl, ?_, ?_⟩
  · intro q kws tok rest h
    unfold is_query_type
    rw [h]
    simp [pyStartswith, List.any_eq_true]
  · intro q₁ q₂ kws t₁ t₂ r₁ r₂ h₁ h₂ ht
    unfold is_query_type
    rw [h₁, h₂]
    simp [ht]

/-- Witness for C5's quantified parts at a concrete query. -/
theorem is_query_type_classifier_witness :
    is_query_type "select 1" ["select"] = .ok true := by
  have h := is_query_type_classifier
  exact (h.2.2.1 "select 1" ["select"] "select".data [['1']] rfl).mpr
    ⟨"select", by simp, by decide⟩

/-- C10: on an empty or whitespace-only query the classifier does not
return a boolean — indexing `[0]` into the empty split raises
`IndexError`. -/
theorem is_query_type_whitespace_index_error (q : String) (kws : List String)
    (h : ∀ c ∈ q.data, pyIsSpace c) :
    is_query_type q kws = .error .indexError := by
  have h₁ : pyLstrip q.data = [] := by
    simpa [pyLstrip, List.dropWhile_eq_nil_iff] using h
  unfold is_query_type
  rw [h₁]
  rfl

/-- Witness for C10 at the whitespace-only query `"  "`. -/
theorem is_query_type_whitespace_index_error_witness :
    is_query_type "  " ["select"] = .error .indexError :=
  is_query_type_whitespace_index_error "  " ["select"] (by decide)

theorem takeWhile_append_of_all {α : Type} (p : α → Bool) (l₁ l₂ : List α)
    (h : ∀ x ∈ l₁, p x) : (l₁ ++ l₂).takeWhile p = l₁ ++ l₂.takeWhile p := by
  induction l₁ with
  | nil => simp
  | cons a t ih =>
    have ha : p a = true := h a (by simp)
    simp only [List.cons_append, List.takeWhile_cons, ha, if_true]
    rw [ih (fun x hx => h x (by simp [hx]))]

theorem dropWhile_append_of_all {α : Type} (p : α → Bool) (l₁ l₂ : List α)
    (h : ∀ x ∈ l₁, p x) : (l₁ ++ l₂).dropWhile p = l₂.dropWhile p := by
  induction l₁ with
  | nil => simp
  | cons a t ih =>
    have ha : p a = true := h a (by simp)
    simp only [List.cons_append, List.dropWhile_cons, ha, if_true]
    exact ih (fun x hx => h x (by simp [hx]))

theorem pySplitOnce_split (sep : Char) (l₁ l₂ : List Char) (h : sep ∉ l₁) :
    pySplitOnce sep (l₁ ++ sep :: l₂) = [l₁, l₂] := by
  have hall : ∀ x ∈ l₁, (decide ¬(x = sep)) = true := by
    intro x hx
    simp
    exact fun he => h (he ▸ hx)
  unfold pySplitOnce
  rw [dropWhile_append_of_all _ l₁ _ hall, takeWhile_append_of_all _ l₁ _ hall]
  simp [List.dropWhile_cons, List.takeWhile_cons]

theorem pySplitAll_ne_nil (sep : Char) (l : List Char) : pySplitAll sep l ≠ [] := by
  cases l with
  | nil => simp [pySplitAll]
  | cons c t =>
    rw [pySplitAll]
    split
    · simp
    · cases h : pySplitAll sep t <;> simp [h]

theorem pySplitAll_headD (sep : Char) (l : List Char) :
    (pySplitAll sep l).headD [] = l.takeWhile (· ≠ sep) := by
  induction l with
  | nil => simp [pySplitAll]
  | cons c t ih =>
    rw [pySplitAll, List.takeWhile_cons]
    by_cases hc : c = sep
    · simp [hc]
    · rw [if_neg hc, if_pos (by simp [hc])]
      cases h : pySplitAll sep t with
      | nil => exact absurd h (pySplitAll_ne_nil sep t)
      | cons hd tl =>
        rw [h] at ih
        simp at ih
        simp [ih]

/-- C6: on a well-formed backtick-quoted, dot-qualified reference
(`pre` before the first backtick contains no backtick, the identifier
carries the fixed 3-character `tab` prefix, and the closing backtick is
followed by nothing or by a dot-qualifier), `table_from_string` returns
the bare identifier: the `tab` prefix and every backtick are gone. -/
theorem table_from_string_extracts_identifier (pre name rest : List Char) (table : String)
    (htable : table.data = pre ++ '`' :: (('t' :: 'a' :: 'b' :: name) ++ '`' :: rest))
    (hpre : '`' ∉ pre) (hname₁ : '`' ∉ name) (hname₂ : '.' ∉ name)
    (hrest : rest = [] ∨ ∃ r, rest = '.' :: r) :
    table_from_string table = .ok ⟨name⟩ := by
  have hall : ∀ x ∈ ('t' :: 'a' :: 'b' :: name), ((· ≠ '.') : Char → Bool) x := by
    intro x hx
    simp only [ne_eq, decide_eq_true_eq]
    intro he
    subst he
    rcases List.mem_cons.mp hx with h | hx₂
    · exact absurd h (by decide)
    rcases List.mem_cons.mp hx₂ with h | hx₃
    · exact absurd h (by decide)
    rcases List.mem_cons.mp hx₃ with h | hx₄
    · exact absurd h (by decide)
    · exact hname₂ hx₄
  have hhead : ((pySplitAll '.' (('t' :: 'a' :: 'b' :: name) ++ '`' :: rest)).headD [])
      = ('t' :: 'a' :: 'b' :: name) ++ ['`'] := by
    rw [pySplitAll_headD,
      takeWhile_append_of_all ((· ≠ '.') : Char → Bool)
        ('t' :: 'a' :: 'b' :: name) ('`' :: rest) hall]
    rcases hrest with h | ⟨r, h⟩ <;> subst h <;> simp [List.takeWhile_cons]
  have hdrop : (((pySplitAll '.' (('t' :: 'a' :: 'b' :: name) ++ '`' :: rest)).headD []).drop 3)
      = name ++ ['`'] := by
    rw [hhead]
    simp
  have hmem : '`' ∈ name ++ ['`'] := by simp
  have hfilter : (name ++ ['`']).filter (· ≠ '`') = name := by
    rw [List.filter_append]
    have h₁ : name.filter (· ≠ '`') = name := by
      rw [List.filter_eq_self]
      intro a ha
      simp only [ne_eq, decide_eq_true_eq]
      exact fun he => hname₁ (he ▸ ha)
    rw [h₁]
    simp
  unfold table_from_string
  rw [htable, pySplitOnce_split '`' pre _ hpre]
  change (if '`' ∈ ((pySplitAll '.' (('t' :: 'a' :: 'b' :: name) ++ '`' :: rest)).headD []).drop 3
      then (Except.ok
        (⟨(((pySplitAll '.' (('t' :: 'a' :: 'b' :: name) ++ '`' :: rest)).headD []).drop 3).filter
          (· ≠ '`')⟩ : String) : Except PyError String)
      else .ok ⟨((pySplitAll '.' (('t' :: 'a' :: 'b' :: name) ++ '`' :: rest)).headD []).drop 3⟩)
    = .ok ⟨name⟩
  rw [hdrop, if_pos hmem, hfilter]

/-- Witness for C6 at the reference `\x60tabUser\x60.\x60name\x60`. -/
theorem table_from_string_extracts_identifier_witness :
    table_from_string "`tabUser`.`name`" = .ok "User" := by
  have h := table_from_string_extracts_identifier [] "User".data ".`name`".data
      "`tabUser`.`name`" (by decide) (by simp) (by decide) (by decide)
      (Or.inr ⟨"`name`".data, by decide⟩)
  simpa using h
